import Mathlib

/-!
# Verification of `labelled-data-array`

A shallow embedding of `src/labelled_data_array/LabelledDataArray.py` and
`src/labelled_data_array/DataArray.py`.

The numeric buffer (a numpy `ndarray`) is modelled by `NDArray`: a shape
(list of dimension lengths) together with a total function from index lists
to integer values; only indices that are componentwise within the shape are
meaningful, the function returns junk elsewhere.  Python slices are modelled
by `PySlice` and the CPython `slice.indices` adjustment algorithm
(`sliceList`).  Exceptions are modelled with `Except Err`, using the error
taxonomy of the specification for the constructor names.
-/

/-- A Python `slice(start, stop, step)` object; `none` models `None`. -/
structure PySlice where
  start : Option Int
  stop : Option Int
  step : Option Int
deriving DecidableEq, Repr

/-- The list of positions selected by a slice on an axis of length `n`,
following CPython's `PySlice_AdjustIndices` (which numpy basic slicing
follows).  A zero step makes numpy raise; it is modelled as the empty
selection and excluded by hypothesis in every theorem quantifying over
slices. -/
def sliceList (s : PySlice) (n : Nat) : List Nat :=
  let step : Int := s.step.getD 1
  if step = 0 then []
  else if 0 < step then
    let start : Int := match s.start with
      | none => 0
      | some v => if v < 0 then max (v + n) 0 else min v n
    let stop : Int := match s.stop with
      | none => n
      | some v => if v < 0 then max (v + n) 0 else min v n
    let count : Nat := (stop - start + step - 1).toNat / step.toNat
    (List.range count).map (fun k => (start + k * step).toNat)
  else
    let start : Int := match s.start with
      | none => n - 1
      | some v => if v < 0 then max (v + n) (-1) else min v (n - 1)
    let stop : Int := match s.stop with
      | none => -1
      | some v => if v < 0 then max (v + n) (-1) else min v (n - 1)
    let count : Nat := (start - stop + (-step) - 1).toNat / (-step).toNat
    (List.range count).map (fun k => (start + k * step).toNat)

/-- The full slice `:` = `slice(None, None, None)`. -/
def fullSlice : PySlice := ⟨none, none, none⟩

/-- Model of a numpy `ndarray` of integers: a shape and a total indexing
function (junk outside the valid index region). -/
structure NDArray where
  shape : List Nat
  data : List Nat → Int

/-- A resolved positional index element: either an integer position (from a
label lookup) or a slice, as appended to `apply_keys` in the source. -/
inductive ApplyKey where
  | pos (k : Nat)
  | slc (s : PySlice)
deriving DecidableEq, Repr

/-- Translate an index into the result of `values[apply_keys]` back into an
index into `values`: integer keys contribute their position and consume no
result coordinate, slice keys translate the next result coordinate through
the slice, and (as in numpy) axes beyond the key tuple are kept as-is. -/
def buildSrcIdx : List ApplyKey → List Nat → List Nat → List Nat
  | [], _, idx => idx
  | .pos k :: ks, ds, idx => k :: buildSrcIdx ks (ds.drop 1) idx
  | .slc s :: ks, ds, idx =>
      (sliceList s (ds.headD 0)).getD (idx.headD 0) 0 ::
        buildSrcIdx ks (ds.drop 1) (idx.drop 1)

/-- Shape of the result of `values[apply_keys]` under numpy basic indexing:
integer keys collapse their axis, slice keys keep it with the sliced
length, and axes beyond the key tuple are kept unchanged. -/
def outShape : List ApplyKey → List Nat → List Nat
  | [], ds => ds
  | .pos _ :: ks, ds => outShape ks (ds.drop 1)
  | .slc s :: ks, ds => (sliceList s (ds.headD 0)).length :: outShape ks (ds.drop 1)

/-- numpy basic indexing `values[apply_keys]` for a tuple of integers and
slices. -/
def applyKeysFun (a : NDArray) (ks : List ApplyKey) : NDArray :=
  ⟨outShape ks a.shape, fun idx => a.data (buildSrcIdx ks a.shape idx)⟩

/-- Materialize a 1-D result as a list (the contents of a 1-D numpy
array, e.g. as consumed by `pd.Series`). -/
def tolist1 (a : NDArray) : List Int :=
  (List.range (a.shape.getD 0 0)).map (fun j => a.data [j])

/-- Materialize a 2-D result as a row-major list of rows (the contents of a
2-D numpy array, e.g. as consumed by `pd.DataFrame`). -/
def tolist2 (a : NDArray) : List (List Int) :=
  (List.range (a.shape.getD 0 0)).map
    (fun i => (List.range (a.shape.getD 1 0)).map (fun j => a.data [i, j]))

/-- numpy `np.transpose(a, axes)`: axis `k` of the result is axis `axes[k]`
of `a`, so a source index is reassembled by looking each source axis up in
`axes`.  Reasonable only when `axes` is a permutation of the axis indices,
as guaranteed at the call site in `rearrange`. -/
def transposeND (a : NDArray) (axes : List Nat) : NDArray :=
  ⟨axes.map (fun k => a.shape.getD k 0),
   fun idx => a.data ((List.range a.shape.length).map
      (fun p => idx.getD (List.indexOf p axes) 0))⟩

/-- Insert value `v` at position `k` of an index list (used to enumerate the
summed-out axis of `values.sum(axis=k)`). -/
def insertAt : Nat → Nat → List Nat → List Nat
  | 0, v, xs => v :: xs
  | _ + 1, v, [] => [v]
  | n + 1, v, x :: xs => x :: insertAt n v xs

/-- numpy `a.sum(axis=k)`: the axis is removed from the shape and the data
is summed over it. -/
def sumAxis (a : NDArray) (k : Nat) : NDArray :=
  ⟨a.shape.eraseIdx k,
   fun idx => ((List.range (a.shape.getD k 0)).map
      (fun i => a.data (insertAt k i idx))).sum⟩

/-- Error taxonomy (constructor names follow the specification §7; each
models a Python exception raised by the source). -/
inductive Err where
  /-- `ValueError` from the axis-label count / length checks in `__init__`. -/
  | shapeMismatch
  /-- `ValueError("axis-names must be a list of strings")` in `__init__`. -/
  | invalidAxisNames
  /-- `ValueError` from the key-arity check in `sel`. -/
  | arityError
  /-- `ValueError(f"Key ... not found in axis {axis_ix}")` in `sel`. -/
  | labelNotFound (axis : Nat)
  /-- `ValueError("Invalid key type")` in `sel`. -/
  | invalidKeyType
  /-- `ValueError` from `list.index` when an axis name is absent. -/
  | axisNameNotFound
  /-- `IndexError` from indexing `axis_names` out of range. -/
  | indexError
  /-- numpy `AxisError` from reducing over an out-of-range axis. -/
  | axisOutOfRange
  /-- `ValueError` from unpacking `zip(*[])` in `sum`. -/
  | emptyUnpack
  /-- A failing `assert` statement in `sel`. -/
  | assertFailed
deriving DecidableEq, Repr

/-- The `LabelledDataArray` entity: buffer, per-axis label vectors, per-axis
names.  Field values are those stored by a (successful) `__init__`. -/
structure LabelledDataArray where
  values : NDArray
  axis_labels : List (List String)
  axis_names : List String

/-- `self.n_dims = len(self.axis_labels)` as set in `__init__`. -/
def LabelledDataArray.n_dims (arr : LabelledDataArray) : Nat :=
  arr.axis_labels.length

/-- `LabelledDataArray.__init__`:
* `axis_names` defaults to `["axis_0", ...]` when `None`, otherwise it is
  converted with `list(...)` (the identity on our `List String` model of a
  list-like argument);
* raises (`ShapeMismatchError` in the specification's taxonomy) when the
  number of label vectors differs from `values.ndim`, or when some label
  vector's size differs from the corresponding buffer dimension;
* the final `isinstance(self.axis_names, list)` check of the source cannot
  fail after the `list(...)` conversion, so no `invalidAxisNames` error is
  reachable here. -/
def mkLabelled (values : NDArray) (axis_labels : List (List String))
    (axis_names : Option (List String)) : Except Err LabelledDataArray :=
  let names := match axis_names with
    | none => (List.range axis_labels.length).map (fun ix => s!"axis_{ix}")
    | some ns => ns
  if axis_labels.length ≠ values.shape.length then .error .shapeMismatch
  else if (List.range axis_labels.length).any
      (fun ix => (axis_labels.getD ix []).length ≠ values.shape.getD ix 0) then
    .error .shapeMismatch
  else .ok ⟨values, axis_labels, names⟩

/-- Well-formedness of a `LabelledDataArray` per the data-model invariants
1–3 of specification §3: one label vector per buffer axis, each of matching
length, and one axis name per axis. -/
def WF (arr : LabelledDataArray) : Prop :=
  arr.axis_labels.length = arr.values.shape.length ∧
  (∀ i < arr.axis_labels.length,
     (arr.axis_labels.getD i []).length = arr.values.shape.getD i 0) ∧
  arr.axis_names.length = arr.axis_labels.length

instance (arr : LabelledDataArray) : Decidable (WF arr) := by
  unfold WF; infer_instance

/-- One element of a `sel` key: a slice, a label string, or a
representative of any other Python value (an integer, a list of labels),
which the source's `else` branch rejects. -/
inductive SelElem where
  | slc (s : PySlice)
  | lbl (l : String)
  | intKey (k : Int)
  | labelList (ls : List String)
deriving DecidableEq, Repr

/-- The resolution loop of `_SelectIndexer.__getitem__` (lines 69–96):
walks the key elements with their axis index, producing `apply_keys` and
`slice_axis`, and raising on the first absent label or invalid-typed
element. -/
def resolveLoop (labels : List (List String)) :
    List SelElem → Nat → Except Err (List ApplyKey × List Nat)
  | [], _ => .ok ([], [])
  | .slc s :: rest, ix =>
      match resolveLoop labels rest (ix + 1) with
      | .error e => .error e
      | .ok (aks, sa) => .ok (.slc s :: aks, ix :: sa)
  | .lbl l :: rest, ix =>
      if l ∈ labels.getD ix [] then
        match resolveLoop labels rest (ix + 1) with
        | .error e => .error e
        | .ok (aks, sa) => .ok (.pos (List.indexOf l (labels.getD ix [])) :: aks, sa)
      else .error (.labelNotFound ix)
  | _ :: _, _ => .error .invalidKeyType

/-- `labels[apply_key]` for a 1-D label array: a slice extracts the sliced
sub-vector (this is the only case reachable in `sel`, where the key at a
retained axis is always a slice; an integer key is given a junk singleton
value). -/
def applyKeyLabels (labels : List String) : ApplyKey → List String
  | .slc s => (sliceList s labels.length).map (fun j => labels.getD j "")
  | .pos k => [labels.getD k ""]

/-- The value returned by `sel[...]`: a raw numpy array (0-D scalar or ≥3-D
fragment), a `pd.Series` (index + data), or a `pd.DataFrame` (index +
columns + data). -/
inductive SelResult where
  | raw (a : NDArray)
  | series (index : List String) (data : List Int)
  | frame (index : List String) (cols : List String) (data : List (List Int))

/-- `LabelledDataArray._SelectIndexer.__getitem__` for a key tuple (the
source additionally wraps a bare non-tuple key into a 1-tuple; keys are
modelled as lists throughout).  The two `assert` statements are modelled as
`assertFailed` errors. -/
def selImpl (arr : LabelledDataArray) (key : List SelElem) : Except Err SelResult :=
  if key.length ≠ arr.n_dims then .error .arityError
  else match resolveLoop arr.axis_labels key 0 with
  | .error e => .error e
  | .ok (aks, sa) =>
    let result := applyKeysFun arr.values aks
    if result.shape.length = 1 then
      if sa.length ≠ 1 then .error .assertFailed
      else .ok (.series
        (applyKeyLabels (arr.axis_labels.getD (sa.getD 0 0) []) (aks.getD (sa.getD 0 0) (.pos 0)))
        (tolist1 result))
    else if result.shape.length = 2 then
      if sa.length ≠ 2 then .error .assertFailed
      else .ok (.frame
        (applyKeyLabels (arr.axis_labels.getD (sa.getD 0 0) []) (aks.getD (sa.getD 0 0) (.pos 0)))
        (applyKeyLabels (arr.axis_labels.getD (sa.getD 1 0) []) (aks.getD (sa.getD 1 0) (.pos 0)))
        (tolist2 result))
    else .ok (.raw result)

/-- The axis-name-less `DataArray` variant (src/labelled_data_array/DataArray.py). -/
structure DataArray where
  values : NDArray
  axis_labels : List (List String)

/-- The resolution loop of `DataArray._SelectIndexer.__getitem__` (lines
55–69).  Unlike the `LabelledDataArray` version, its two `if` statements
have no `else`: an element that is neither a slice nor a string is
silently skipped (contributing nothing to `apply_keys`). -/
def resolveLoopDA (labels : List (List String)) :
    List SelElem → Nat → Except Err (List ApplyKey × List Nat)
  | [], _ => .ok ([], [])
  | .slc s :: rest, ix =>
      match resolveLoopDA labels rest (ix + 1) with
      | .error e => .error e
      | .ok (aks, sa) => .ok (.slc s :: aks, ix :: sa)
  | .lbl l :: rest, ix =>
      if l ∈ labels.getD ix [] then
        match resolveLoopDA labels rest (ix + 1) with
        | .error e => .error e
        | .ok (aks, sa) => .ok (.pos (List.indexOf l (labels.getD ix [])) :: aks, sa)
      else .error (.labelNotFound ix)
  | _ :: rest, ix => resolveLoopDA labels rest (ix + 1)

/-- `DataArray._SelectIndexer.__getitem__` (same wrapping code as the
`LabelledDataArray` version, but with the skipping resolution loop). -/
def selImplDA (arr : DataArray) (key : List SelElem) : Except Err SelResult :=
  if key.length ≠ arr.axis_labels.length then .error .arityError
  else match resolveLoopDA arr.axis_labels key 0 with
  | .error e => .error e
  | .ok (aks, sa) =>
    let result := applyKeysFun arr.values aks
    if result.shape.length = 1 then
      if sa.length ≠ 1 then .error .assertFailed
      else .ok (.series
        (applyKeyLabels (arr.axis_labels.getD (sa.getD 0 0) []) (aks.getD (sa.getD 0 0) (.pos 0)))
        (tolist1 result))
    else if result.shape.length = 2 then
      if sa.length ≠ 2 then .error .assertFailed
      else .ok (.frame
        (applyKeyLabels (arr.axis_labels.getD (sa.getD 0 0) []) (aks.getD (sa.getD 0 0) (.pos 0)))
        (applyKeyLabels (arr.axis_labels.getD (sa.getD 1 0) []) (aks.getD (sa.getD 1 0) (.pos 0)))
        (tolist2 result))
    else .ok (.raw result)

/-- `axis_ix = axis if isinstance(axis, int) else self.axis_names.index(axis)`
(`list.index` raises `ValueError` — `AxisNameNotFoundError` in the
specification's taxonomy — when the name is absent). -/
def resolveAxis (arr : LabelledDataArray) : Nat ⊕ String → Except Err Nat
  | .inl k => .ok k
  | .inr name =>
      if name ∈ arr.axis_names then .ok (List.indexOf name arr.axis_names)
      else .error .axisNameNotFound

/-- The list comprehension in `sum` (lines 192–200): keep the
`(name, labels)` pairs of `enumerate(zip(axis_names, axis_labels))` whose
index is not `axis_ix`, with `i` the running enumeration counter. -/
def dropAxis (axisIx : Nat) : List (String × List String) → Nat → List (String × List String)
  | [], _ => []
  | p :: rest, i =>
      if i = axisIx then dropAxis axisIx rest (i + 1)
      else p :: dropAxis axisIx rest (i + 1)

/-- `LabelledDataArray.sum(axis)`:
* resolve the axis (by name via `list.index` if a string);
* `axis_name = self.axis_names[axis_ix]` raises `IndexError` when out of
  range (the value itself is never used);
* unpacking `zip(*[...])` of the filtered pairs raises `ValueError` when no
  pair remains (the 1-D case);
* `values.sum(axis=axis_ix)` raises numpy `AxisError` for an out-of-range
  axis; otherwise the result is rebuilt through `__init__`. -/
def sumImpl (arr : LabelledDataArray) (axis : Nat ⊕ String) : Except Err LabelledDataArray :=
  match resolveAxis arr axis with
  | .error e => .error e
  | .ok axisIx =>
    if axisIx < arr.axis_names.length then
      let pairs := dropAxis axisIx (arr.axis_names.zip arr.axis_labels) 0
      if pairs.isEmpty then .error .emptyUnpack
      else if axisIx < arr.values.shape.length then
        mkLabelled (sumAxis arr.values axisIx) (pairs.map Prod.snd) (some (pairs.map Prod.fst))
      else .error .axisOutOfRange
    else .error .indexError

/-- `[self.axis_names.index(name) for name in new_axis_names_order]`:
resolve every requested axis name, failing on the first absent one. -/
def resolveNames (names : List String) : List String → Except Err (List Nat)
  | [] => .ok []
  | n :: rest =>
      if n ∈ names then
        match resolveNames names rest with
        | .error e => .error e
        | .ok ks => .ok (List.indexOf n names :: ks)
      else .error .axisNameNotFound

/-- `LabelledDataArray.rearrange(new_axis_names_order)`: permute labels and
transpose the buffer by the resolved positions, then rebuild through
`__init__` with `axis_names = new_axis_names_order`. -/
def rearrangeImpl (arr : LabelledDataArray) (newOrder : List String) :
    Except Err LabelledDataArray :=
  match resolveNames arr.axis_names newOrder with
  | .error e => .error e
  | .ok ix =>
      mkLabelled (transposeND arr.values ix)
        (ix.map (fun k => arr.axis_labels.getD k [])) (some newOrder)

/-- `pd.Index(labels).get_indexer_for(keys)`:
* on a unique index this is `get_indexer`: the position of each key, or
  `-1` when absent;
* on a non-unique index it is the indexer of `get_indexer_non_unique`: for
  each key, every matching position in index order (or a single `-1` when
  the key is absent), concatenated. -/
def getIndexerFor (labels : List String) (keys : List String) : List Int :=
  if labels.Nodup then
    keys.map (fun k => if k ∈ labels then (List.indexOf k labels : Int) else -1)
  else
    (keys.map (fun k =>
      let ps := (List.range labels.length).filter (fun i => labels.getD i "" = k)
      if ps.isEmpty then [-1] else ps.map (fun i => (i : Int)))).flatten

/-- `LabelledDataArray.get_indexer(keys, axis)`: resolve the axis, then
delegate to `pd.Index(...).get_indexer_for`. -/
def getIndexerImpl (arr : LabelledDataArray) (keys : List String) (axis : Nat ⊕ String) :
    Except Err (List Int) :=
  match resolveAxis arr axis with
  | .error e => .error e
  | .ok axisIx =>
      if axisIx < arr.axis_labels.length then
        .ok (getIndexerFor (arr.axis_labels.getD axisIx []) keys)
      else .error .indexError

/-! ## General list helpers -/

theorem map_eraseIdx_comm {α β : Type} (f : α → β) :
    ∀ (l : List α) (i : Nat), (l.eraseIdx i).map f = (l.map f).eraseIdx i
  | [], _ => by simp
  | _ :: _, 0 => by simp [List.eraseIdx]
  | x :: xs, i + 1 => by simp [List.eraseIdx, map_eraseIdx_comm f xs i]

theorem range_map_getD_eq_map {α β : Type} (l : List α) (d : α) (f : α → β) :
    (List.range l.length).map (fun j => f (l.getD j d)) = l.map f := by
  apply List.ext_getElem
  · simp
  · intro n h1 h2
    simp only [List.getElem_map, List.getElem_range]
    rw [List.getD_eq_getElem l d (by simpa using h2)]

theorem range_map_getD_self {α : Type} (l : List α) (d : α) :
    (List.range l.length).map (fun j => l.getD j d) = l := by
  have h := range_map_getD_eq_map l d id
  simpa using h

/-! ## Characterizing the selection resolution loop -/

/-- The resolved `apply_keys` entry for one key element (assuming it is
accepted by the loop; other elements are given a junk value). -/
def resolveElem (labels : List (List String)) (ix : Nat) : SelElem → ApplyKey
  | .slc s => .slc s
  | .lbl l => .pos (List.indexOf l (labels.getD ix []))
  | _ => .pos 0

/-- All `apply_keys` entries of a key, numbering axes from `c`. -/
def resolveAll (labels : List (List String)) : List SelElem → Nat → List ApplyKey
  | [], _ => []
  | e :: rest, c => resolveElem labels c e :: resolveAll labels rest (c + 1)

/-- The `slice_axis` list of a key, numbering axes from `c`. -/
def sliceAxesOf : List SelElem → Nat → List Nat
  | [], _ => []
  | .slc _ :: rest, c => c :: sliceAxesOf rest (c + 1)
  | _ :: rest, c => sliceAxesOf rest (c + 1)

/-- A key element the resolution loop accepts at axis `ix`: any slice, or a
label present in that axis's label vector. -/
def ResolvesAt (labels : List (List String)) (ix : Nat) : SelElem → Prop
  | .slc _ => True
  | .lbl l => l ∈ labels.getD ix []
  | .intKey _ => False
  | .labelList _ => False

instance (labels : List (List String)) (ix : Nat) :
    (e : SelElem) → Decidable (ResolvesAt labels ix e)
  | .slc _ => .isTrue trivial
  | .lbl l => inferInstanceAs (Decidable (l ∈ labels.getD ix []))
  | .intKey _ => .isFalse (fun h => h)
  | .labelList _ => .isFalse (fun h => h)

/-- A fully valid key element at axis `ix`: additionally excludes the
zero-step slices on which numpy indexing itself raises. -/
def WfElem (labels : List (List String)) (ix : Nat) : SelElem → Prop
  | .slc s => s.step ≠ some 0
  | .lbl l => l ∈ labels.getD ix []
  | .intKey _ => False
  | .labelList _ => False

instance (labels : List (List String)) (ix : Nat) :
    (e : SelElem) → Decidable (WfElem labels ix e)
  | .slc s => inferInstanceAs (Decidable (s.step ≠ some 0))
  | .lbl l => inferInstanceAs (Decidable (l ∈ labels.getD ix []))
  | .intKey _ => .isFalse (fun h => h)
  | .labelList _ => .isFalse (fun h => h)

theorem WfElem.resolvesAt {labels : List (List String)} {ix : Nat} {e : SelElem}
    (h : WfElem labels ix e) : ResolvesAt labels ix e := by
  cases e <;> simp_all [WfElem, ResolvesAt]

/-- An entirely accepted key (starting from axis `c`) resolves to the
componentwise `apply_keys` and the slice positions. -/
theorem resolveLoop_ok (labels : List (List String)) :
    ∀ (key : List SelElem) (c : Nat),
      (∀ j e, key[j]? = some e → ResolvesAt labels (c + j) e) →
      resolveLoop labels key c = .ok (resolveAll labels key c, sliceAxesOf key c)
  | [], c, _ => rfl
  | .slc s :: rest, c, h => by
      have hrec := resolveLoop_ok labels rest (c + 1)
        (fun j e hj => by
          have := h (j + 1) e (by simpa using hj)
          simpa [Nat.add_assoc, Nat.add_comm 1 j] using this)
      simp only [resolveLoop, resolveAll, sliceAxesOf, resolveElem]
      rw [hrec]
  | .lbl l :: rest, c, h => by
      have hmem : l ∈ labels.getD c [] := by
        have := h 0 (.lbl l) (by simp)
        simpa [ResolvesAt] using this
      have hrec := resolveLoop_ok labels rest (c + 1)
        (fun j e hj => by
          have := h (j + 1) e (by simpa using hj)
          simpa [Nat.add_assoc, Nat.add_comm 1 j] using this)
      simp only [resolveLoop, resolveAll, sliceAxesOf, resolveElem]
      rw [if_pos hmem, hrec]
  | .intKey k :: _, c, h => absurd (h 0 (.intKey k) (by simp)) (fun h => h)
  | .labelList ls :: _, c, h => absurd (h 0 (.labelList ls) (by simp)) (fun h => h)

/-- If everything before position `i` is accepted and the element at `i` is
an absent label, the loop raises `LabelNotFoundError` naming that axis. -/
theorem resolveLoop_label_absent (labels : List (List String)) :
    ∀ (key : List SelElem) (c i : Nat) (s : String),
      key[i]? = some (.lbl s) →
      s ∉ labels.getD (c + i) [] →
      (∀ j, j < i → ∀ e, key[j]? = some e → ResolvesAt labels (c + j) e) →
      resolveLoop labels key c = .error (.labelNotFound (c + i))
  | [], _, i, _, hkey, _, _ => by simp at hkey
  | e₀ :: rest, c, 0, s, hkey, habs, _ => by
      have he : e₀ = .lbl s := by simpa using hkey
      subst he
      simp only [resolveLoop]
      rw [if_neg (by simpa using habs)]
      simp
  | e₀ :: rest, c, i + 1, s, hkey, habs, hpre => by
      have habs' : s ∉ labels.getD (c + 1 + i) [] := by
        simpa [Nat.add_assoc, Nat.add_comm 1 i] using habs
      have hrec := resolveLoop_label_absent labels rest (c + 1) i s
        (by simpa using hkey) habs'
        (fun j hj e hje => by
          have := hpre (j + 1) (by omega) e (by simpa using hje)
          simpa [Nat.add_assoc, Nat.add_comm 1 j] using this)
      have hres : (c + 1) + i = c + (i + 1) := by omega
      rw [hres] at hrec
      have h0 := hpre 0 (by omega) e₀ (by simp)
      match e₀, h0 with
      | .slc s₀, _ => simp only [resolveLoop]; rw [hrec]
      | .lbl l₀, h0 =>
          have hm : l₀ ∈ labels.getD c [] := by simpa [ResolvesAt] using h0
          simp only [resolveLoop]
          rw [if_pos hm, hrec]
      | .intKey _, h0 => exact absurd h0 (fun h => h)
      | .labelList _, h0 => exact absurd h0 (fun h => h)

/-- If everything before position `i` is accepted and the element at `i` is
neither a slice nor a string, the loop raises `InvalidKeyTypeError`. -/
theorem resolveLoop_invalid (labels : List (List String)) :
    ∀ (key : List SelElem) (c i : Nat) (e : SelElem),
      key[i]? = some e →
      (∀ s, e ≠ .slc s) → (∀ l, e ≠ .lbl l) →
      (∀ j, j < i → ∀ e', key[j]? = some e' → ResolvesAt labels (c + j) e') →
      resolveLoop labels key c = .error .invalidKeyType
  | [], _, i, _, hkey, _, _, _ => by simp at hkey
  | e₀ :: rest, c, 0, e, hkey, hns, hnl, _ => by
      have he : e₀ = e := by simpa using hkey
      subst he
      match e₀, hns, hnl with
      | .slc s₀, hns, _ => exact absurd rfl (hns s₀)
      | .lbl l₀, _, hnl => exact absurd rfl (hnl l₀)
      | .intKey _, _, _ => rfl
      | .labelList _, _, _ => rfl
  | e₀ :: rest, c, i + 1, e, hkey, hns, hnl, hpre => by
      have hrec := resolveLoop_invalid labels rest (c + 1) i e
        (by simpa using hkey) hns hnl
        (fun j hj e' hje => by
          have := hpre (j + 1) (by omega) e' (by simpa using hje)
          simpa [Nat.add_assoc, Nat.add_comm 1 j] using this)
      have h0 := hpre 0 (by omega) e₀ (by simp)
      match e₀, h0 with
      | .slc s₀, _ => simp only [resolveLoop]; rw [hrec]
      | .lbl l₀, h0 =>
          have hm : l₀ ∈ labels.getD c [] := by simpa [ResolvesAt] using h0
          simp only [resolveLoop]
          rw [if_pos hm, hrec]
      | .intKey _, h0 => exact absurd h0 (fun h => h)
      | .labelList _, h0 => exact absurd h0 (fun h => h)

/-- Axes recorded in `slice_axis` are numbered from the loop counter up. -/
theorem resolveLoop_sa_ge (labels : List (List String)) :
    ∀ (key : List SelElem) (c : Nat) (aks : List ApplyKey) (sa : List Nat),
      resolveLoop labels key c = .ok (aks, sa) → ∀ x ∈ sa, c ≤ x
  | [], c, aks, sa, h => by
      simp only [resolveLoop] at h
      simp only [Except.ok.injEq, Prod.mk.injEq] at h
      obtain ⟨-, hsa⟩ := h
      subst hsa
      intro x hx
      simp at hx
  | .slc s₀ :: rest, c, aks, sa, h => by
      simp only [resolveLoop] at h
      cases hr : resolveLoop labels rest (c + 1) with
      | error e => rw [hr] at h; exact absurd h (by simp)
      | ok p =>
          obtain ⟨aks', sa'⟩ := p
          rw [hr] at h
          simp only [Except.ok.injEq, Prod.mk.injEq] at h
          obtain ⟨-, hsa⟩ := h
          subst hsa
          intro x hx
          rcases List.mem_cons.mp hx with hx | hx
          · omega
          · have := resolveLoop_sa_ge labels rest (c + 1) aks' sa' hr x hx
            omega
  | .lbl l₀ :: rest, c, aks, sa, h => by
      simp only [resolveLoop] at h
      by_cases hm : l₀ ∈ labels.getD c []
      · rw [if_pos hm] at h
        cases hr : resolveLoop labels rest (c + 1) with
        | error e => rw [hr] at h; exact absurd h (by simp)
        | ok p =>
            obtain ⟨aks', sa'⟩ := p
            rw [hr] at h
            simp only [Except.ok.injEq, Prod.mk.injEq] at h
            obtain ⟨-, hsa⟩ := h
            subst hsa
            intro x hx
            have := resolveLoop_sa_ge labels rest (c + 1) aks' sa' hr x hx
            omega
      · rw [if_neg hm] at h
        exact absurd h (by simp)
  | .intKey _ :: rest, c, aks, sa, h => by
      simp only [resolveLoop] at h
      exact absurd h (by simp)
  | .labelList _ :: rest, c, aks, sa, h => by
      simp only [resolveLoop] at h
      exact absurd h (by simp)

/-- When the whole loop succeeds, a label element at position `i` resolved
to the position of the first matching label, and its axis was not recorded
as a retained (slice) axis. -/
theorem resolveLoop_ok_inv (labels : List (List String)) :
    ∀ (key : List SelElem) (c : Nat) (aks : List ApplyKey) (sa : List Nat),
      resolveLoop labels key c = .ok (aks, sa) →
      ∀ i s, key[i]? = some (.lbl s) →
        s ∈ labels.getD (c + i) [] ∧
        aks[i]? = some (.pos (List.indexOf s (labels.getD (c + i) []))) ∧
        (c + i) ∉ sa
  | [], c, aks, sa, h, i, s, hkey => by simp at hkey
  | .slc s₀ :: rest, c, aks, sa, h, i, s, hkey => by
      simp only [resolveLoop] at h
      cases hr : resolveLoop labels rest (c + 1) with
      | error e => rw [hr] at h; exact absurd h (by simp)
      | ok p =>
          obtain ⟨aks', sa'⟩ := p
          rw [hr] at h
          simp only [Except.ok.injEq, Prod.mk.injEq] at h
          obtain ⟨haks, hsa⟩ := h
          subst haks; subst hsa
          cases i with
          | zero => simp at hkey
          | succ i =>
              have ih := resolveLoop_ok_inv labels rest (c + 1) aks' sa' hr i s
                (by simpa using hkey)
              have harith : c + 1 + i = c + (i + 1) := by omega
              rw [harith] at ih
              refine ⟨ih.1, by simpa using ih.2.1, ?_⟩
              intro hx
              rcases List.mem_cons.mp hx with hx | hx
              · omega
              · exact ih.2.2 hx
  | .lbl l₀ :: rest, c, aks, sa, h, i, s, hkey => by
      simp only [resolveLoop] at h
      by_cases hm : l₀ ∈ labels.getD c []
      · rw [if_pos hm] at h
        cases hr : resolveLoop labels rest (c + 1) with
        | error e => rw [hr] at h; exact absurd h (by simp)
        | ok p =>
            obtain ⟨aks', sa'⟩ := p
            rw [hr] at h
            simp only [Except.ok.injEq, Prod.mk.injEq] at h
            obtain ⟨haks, hsa⟩ := h
            subst haks; subst hsa
            cases i with
            | zero =>
                have hs : s = l₀ := by simpa using hkey.symm
                subst hs
                refine ⟨by simpa using hm, by simp, ?_⟩
                intro hx
                have := resolveLoop_sa_ge labels rest (c + 1) aks' sa' hr _
                  (by simpa using hx)
                omega
            | succ i =>
                have ih := resolveLoop_ok_inv labels rest (c + 1) aks' sa' hr i s
                  (by simpa using hkey)
                have harith : c + 1 + i = c + (i + 1) := by omega
                rw [harith] at ih
                exact ⟨ih.1, by simpa using ih.2.1, ih.2.2⟩
      · rw [if_neg hm] at h
        exact absurd h (by simp)
  | .intKey _ :: rest, c, aks, sa, h, i, s, hkey => by
      simp only [resolveLoop] at h
      exact absurd h (by simp)
  | .labelList _ :: rest, c, aks, sa, h, i, s, hkey => by
      simp only [resolveLoop] at h
      exact absurd h (by simp)

/-- For an arity-matching key, the positional result has exactly one axis
per slice element. -/
theorem outShape_resolveAll_length (labels : List (List String)) :
    ∀ (key : List SelElem) (c : Nat) (ds : List Nat), key.length = ds.length →
      (outShape (resolveAll labels key c) ds).length = (sliceAxesOf key c).length
  | [], c, ds, h => by
      have : ds = [] := List.length_eq_zero.mp (by simpa using h.symm)
      subst this
      simp [outShape, resolveAll, sliceAxesOf]
  | .slc s₀ :: rest, c, ds, h => by
      cases ds with
      | nil => simp at h
      | cons d ds' =>
          have ih := outShape_resolveAll_length labels rest (c + 1) ds' (by simpa using h)
          simp [resolveAll, resolveElem, outShape, sliceAxesOf, ih]
  | .lbl l₀ :: rest, c, ds, h => by
      cases ds with
      | nil => simp at h
      | cons d ds' =>
          have ih := outShape_resolveAll_length labels rest (c + 1) ds' (by simpa using h)
          simp [resolveAll, resolveElem, outShape, sliceAxesOf, ih]
  | .intKey _ :: rest, c, ds, h => by
      cases ds with
      | nil => simp at h
      | cons d ds' =>
          have ih := outShape_resolveAll_length labels rest (c + 1) ds' (by simpa using h)
          simp [resolveAll, resolveElem, outShape, sliceAxesOf, ih]
  | .labelList _ :: rest, c, ds, h => by
      cases ds with
      | nil => simp at h
      | cons d ds' =>
          have ih := outShape_resolveAll_length labels rest (c + 1) ds' (by simpa using h)
          simp [resolveAll, resolveElem, outShape, sliceAxesOf, ih]

/-! ## Construction lemmas -/

theorem mkLabelled_ok_some (v : NDArray) (labels : List (List String)) (ns : List String)
    (h1 : labels.length = v.shape.length)
    (h2 : ∀ i < labels.length, (labels.getD i []).length = v.shape.getD i 0) :
    mkLabelled v labels (some ns) = .ok ⟨v, labels, ns⟩ := by
  have hany : ((List.range labels.length).any
      (fun ix => (labels.getD ix []).length ≠ v.shape.getD ix 0)) ≠ true := by
    intro hc
    obtain ⟨ix, hmem, hix⟩ := List.any_eq_true.mp hc
    rw [List.mem_range] at hmem
    exact (of_decide_eq_true hix) (h2 ix hmem)
  simp only [mkLabelled]
  rw [if_neg (fun hc => hc h1), if_neg hany]

theorem mkLabelled_ok_none (v : NDArray) (labels : List (List String))
    (h1 : labels.length = v.shape.length)
    (h2 : ∀ i < labels.length, (labels.getD i []).length = v.shape.getD i 0) :
    mkLabelled v labels none =
      .ok ⟨v, labels, (List.range labels.length).map (fun ix => s!"axis_{ix}")⟩ := by
  have hany : ((List.range labels.length).any
      (fun ix => (labels.getD ix []).length ≠ v.shape.getD ix 0)) ≠ true := by
    intro hc
    obtain ⟨ix, hmem, hix⟩ := List.any_eq_true.mp hc
    rw [List.mem_range] at hmem
    exact (of_decide_eq_true hix) (h2 ix hmem)
  simp only [mkLabelled]
  rw [if_neg (fun hc => hc h1), if_neg hany]

theorem mkLabelled_err (v : NDArray) (labels : List (List String))
    (nso : Option (List String))
    (h : ¬(labels.length = v.shape.length ∧
      ∀ i < labels.length, (labels.getD i []).length = v.shape.getD i 0)) :
    mkLabelled v labels nso = .error .shapeMismatch := by
  by_cases hc1 : labels.length = v.shape.length
  · have hc2 : ∃ ix, ix < labels.length ∧ (labels.getD ix []).length ≠ v.shape.getD ix 0 := by
      by_contra hc
      push_neg at hc
      exact h ⟨hc1, fun i hi => hc i hi⟩
    have hany : ((List.range labels.length).any
        (fun ix => (labels.getD ix []).length ≠ v.shape.getD ix 0)) = true := by
      simp only [List.any_eq_true, List.mem_range, decide_eq_true_eq]
      exact hc2
    simp only [mkLabelled]
    rw [if_neg (fun hc => hc hc1), if_pos hany]
  · simp only [mkLabelled]
    rw [if_pos hc1]

/-! ## Concrete example arrays (used by witnesses and counterexamples) -/

/-- The specification's running example buffer: 2×3, entry `(i,j) = 10*i + j`. -/
def exBuf : NDArray :=
  ⟨[2, 3], fun idx => 10 * (idx.headD 0 : Int) + ((idx.drop 1).headD 0 : Int)⟩

/-- The specification's running example: row labels `["a","b"]`, column
labels `["x","y","z"]`. -/
def exArr : LabelledDataArray :=
  ⟨exBuf, [["a", "b"], ["x", "y", "z"]], ["axis_0", "axis_1"]⟩

/-- A 1-D buffer of length 2. -/
def ex1Buf : NDArray := ⟨[2], fun idx => (idx.headD 0 : Int)⟩

/-- A 1-D labelled array. -/
def ex1Arr : LabelledDataArray := ⟨ex1Buf, [["a", "b"]], ["axis_0"]⟩

/-- A 1-D labelled array with duplicate labels on its only axis. -/
def dupArr : LabelledDataArray := ⟨ex1Buf, [["x", "x"]], ["axis_0"]⟩

/-- A 2×2 `DataArray` (the axis-name-less variant). -/
def daEx : DataArray :=
  ⟨⟨[2, 2], fun idx => 2 * (idx.headD 0 : Int) + ((idx.drop 1).headD 0 : Int)⟩,
   [["a", "b"], ["c", "d"]]⟩

/-! ## Claim theorems -/

/-- **C5.** Construction of a `LabelledDataArray` succeeds if and only if
`len(axis_labels)` equals `buffer.ndim` and every axis's label count equals
that axis's buffer dimension; on success `shape` equals the buffer's shape
tuple, and on violation of either condition construction fails with
`ShapeMismatchError`. -/
theorem C5_construction (v : NDArray) (labels : List (List String))
    (nso : Option (List String)) :
    ((∃ arr, mkLabelled v labels nso = .ok arr) ↔
      (labels.length = v.shape.length ∧
       ∀ i < labels.length, (labels.getD i []).length = v.shape.getD i 0)) ∧
    (∀ arr, mkLabelled v labels nso = .ok arr → arr.values.shape = v.shape) ∧
    (¬(labels.length = v.shape.length ∧
       ∀ i < labels.length, (labels.getD i []).length = v.shape.getD i 0) →
      mkLabelled v labels nso = .error .shapeMismatch) := by
  refine ⟨⟨?_, ?_⟩, ?_, mkLabelled_err v labels nso⟩
  · rintro ⟨arr, harr⟩
    by_contra hc
    rw [mkLabelled_err v labels nso hc] at harr
    exact absurd harr (by simp)
  · rintro ⟨h1, h2⟩
    cases nso with
    | none => exact ⟨_, mkLabelled_ok_none v labels h1 h2⟩
    | some ns => exact ⟨_, mkLabelled_ok_some v labels ns h1 h2⟩
  · intro arr harr
    by_cases hc : (labels.length = v.shape.length ∧
      ∀ i < labels.length, (labels.getD i []).length = v.shape.getD i 0)
    · obtain ⟨h1, h2⟩ := hc
      cases nso with
      | none =>
          rw [mkLabelled_ok_none v labels h1 h2] at harr
          obtain rfl := Except.ok.inj harr
          rfl
      | some ns =>
          rw [mkLabelled_ok_some v labels ns h1 h2] at harr
          obtain rfl := Except.ok.inj harr
          rfl
    · rw [mkLabelled_err v labels nso hc] at harr
      exact absurd harr (by simp)

/-- Witness for C5 at the specification's example. -/
theorem C5_construction_witness :
    ∃ arr, mkLabelled exBuf [["a", "b"], ["x", "y", "z"]] none = .ok arr :=
  (C5_construction exBuf [["a", "b"], ["x", "y", "z"]] none).1.mpr (by decide)

/-- **C6 counterexample.** The claim says construction fails with
`InvalidAxisNamesError` whenever `axis_names` is supplied with a length
other than `n_dims`.  In fact the source never checks the length of
`axis_names`: supplying two names for a 1-axis array succeeds. -/
theorem C6_counterexample :
    mkLabelled ex1Buf [["a", "b"]] (some ["n1", "n2"]) =
      .ok ⟨ex1Buf, [["a", "b"]], ["n1", "n2"]⟩ :=
  mkLabelled_ok_some ex1Buf [["a", "b"]] ["n1", "n2"] (by decide) (by decide)

/-- **C6 (amended).** The length of a supplied `axis_names` is never
validated: construction never fails with `InvalidAxisNamesError` (the
`isinstance(..., list)` check is unreachable after the `list(...)`
conversion of any list-like argument), and whenever the shape checks pass,
construction succeeds storing the supplied names unchanged — whatever
their length. -/
theorem C6_names_length_unchecked (v : NDArray) (labels : List (List String))
    (ns : List String) :
    mkLabelled v labels (some ns) ≠ .error .invalidAxisNames ∧
    (labels.length = v.shape.length →
      (∀ i < labels.length, (labels.getD i []).length = v.shape.getD i 0) →
      mkLabelled v labels (some ns) = .ok ⟨v, labels, ns⟩) := by
  constructor
  · intro hc
    by_cases h : (labels.length = v.shape.length ∧
      ∀ i < labels.length, (labels.getD i []).length = v.shape.getD i 0)
    · rw [mkLabelled_ok_some v labels ns h.1 h.2] at hc
      exact absurd hc (by simp)
    · rw [mkLabelled_err v labels (some ns) h] at hc
      simp at hc
  · intro h1 h2
    exact mkLabelled_ok_some v labels ns h1 h2

/-- Witness for the amended C6: wrong-length names accepted on a concrete
array. -/
theorem C6_names_length_unchecked_witness :
    mkLabelled ex1Buf [["a", "b"]] (some ["n1", "n2"]) =
      .ok ⟨ex1Buf, [["a", "b"]], ["n1", "n2"]⟩ :=
  (C6_names_length_unchecked ex1Buf [["a", "b"]] ["n1", "n2"]).2 (by decide) (by decide)

/-- **C2.** A string key element with no exact match in its axis's label
vector makes `sel` fail with `LabelNotFoundError` naming the axis (provided
the loop reaches it, i.e. every earlier element is accepted); a present
label resolves to the position of the first matching label and its axis is
collapsed (absent from `slice_axis`). -/
theorem C2_label_selection (arr : LabelledDataArray) (key : List SelElem)
    (i : Nat) (s : String)
    (hkey : key[i]? = some (.lbl s))
    (harity : key.length = arr.n_dims)
    (hpre : ∀ j, j < i → ∀ e, key[j]? = some e → ResolvesAt arr.axis_labels j e) :
    (s ∉ arr.axis_labels.getD i [] → selImpl arr key = .error (.labelNotFound i)) ∧
    (s ∈ arr.axis_labels.getD i [] →
      ∀ aks sa, resolveLoop arr.axis_labels key 0 = .ok (aks, sa) →
        aks[i]? = some (.pos (List.indexOf s (arr.axis_labels.getD i []))) ∧
        i ∉ sa) := by
  constructor
  · intro habs
    have hloop := resolveLoop_label_absent arr.axis_labels key 0 i s hkey
      (by simpa using habs)
      (fun j hj e hje => by simpa using hpre j hj e hje)
    rw [Nat.zero_add] at hloop
    simp only [selImpl]
    rw [if_neg (fun hc => hc harity), hloop]
  · intro _ aks sa hloop
    have h := resolveLoop_ok_inv arr.axis_labels key 0 aks sa hloop i s hkey
    exact ⟨by simpa using h.2.1, by simpa using h.2.2⟩

/-- Witness for C2: looking up the absent label `"q"` on the example
2×3 array. -/
theorem C2_label_selection_witness :
    (("q" : String) ∉ exArr.axis_labels.getD 0 [] →
      selImpl exArr [.lbl "q", .slc fullSlice] = .error (.labelNotFound 0)) ∧
    (("q" : String) ∈ exArr.axis_labels.getD 0 [] →
      ∀ aks sa, resolveLoop exArr.axis_labels [.lbl "q", .slc fullSlice] 0 = .ok (aks, sa) →
        aks[0]? = some (.pos (List.indexOf "q" (exArr.axis_labels.getD 0 []))) ∧
        0 ∉ sa) :=
  C2_label_selection exArr [.lbl "q", .slc fullSlice] 0 "q" (by decide) (by decide)
    (fun j hj _ _ => absurd hj (by omega))

/-- **C3 counterexample.** The claim requires every `sel` with a key
element that is neither a slice nor a label string to fail with
`InvalidKeyTypeError`.  The `DataArray` variant's resolution loop instead
silently skips such elements (its `if` statements have no `else`); on a 2×2
array with key `(:, 5)` the skipped element leaves a 2-D positional result
with only one recorded slice axis, so `sel` fails with an `AssertionError`
instead. -/
theorem C3_counterexample :
    selImplDA daEx [.slc fullSlice, .intKey 5] = .error .assertFailed ∧
    selImplDA daEx [.slc fullSlice, .intKey 5] ≠ .error .invalidKeyType := by
  have h : selImplDA daEx [.slc fullSlice, .intKey 5] = .error .assertFailed := rfl
  refine ⟨h, ?_⟩
  rw [h]
  simp

/-- **C3 (amended).** In `LabelledDataArray.sel`, a key element that is
neither a slice nor a label string makes the call fail with
`InvalidKeyTypeError` (provided the loop reaches it); the `DataArray`
variant deviates by silently skipping such elements, as the counterexample
shows. -/
theorem C3_invalid_key_type (arr : LabelledDataArray) (key : List SelElem)
    (i : Nat) (e : SelElem)
    (hkey : key[i]? = some e)
    (hns : ∀ s, e ≠ .slc s) (hnl : ∀ l, e ≠ .lbl l)
    (harity : key.length = arr.n_dims)
    (hpre : ∀ j, j < i → ∀ e', key[j]? = some e' → ResolvesAt arr.axis_labels j e') :
    selImpl arr key = .error .invalidKeyType := by
  have hloop := resolveLoop_invalid arr.axis_labels key 0 i e hkey hns hnl
    (fun j hj e' hje => by simpa using hpre j hj e' hje)
  simp only [selImpl]
  rw [if_neg (fun hc => hc harity), hloop]

/-- Witness for the amended C3: an integer key element on the example
array. -/
theorem C3_invalid_key_type_witness :
    selImpl exArr [.intKey 5, .slc fullSlice] = .error .invalidKeyType :=
  C3_invalid_key_type exArr [.intKey 5, .slc fullSlice] 0 (.intKey 5) (by decide)
    (fun _ h => SelElem.noConfusion h) (fun _ h => SelElem.noConfusion h)
    (by decide) (fun j hj _ _ => absurd hj (by omega))

/-- **C4.** For a valid selection key (correct arity; every element a
slice or a present label), resolution succeeds, the number of retained
(slice) axes equals the dimensionality of the positional-indexing result,
and `sel` returns successfully — in particular the assertions guarding the
1-D and 2-D re-wrapping branches never fail. -/
theorem C4_assertions (arr : LabelledDataArray) (hwf : WF arr) (key : List SelElem)
    (harity : key.length = arr.n_dims)
    (hvalid : ∀ j e, key[j]? = some e → WfElem arr.axis_labels j e) :
    resolveLoop arr.axis_labels key 0 =
      .ok (resolveAll arr.axis_labels key 0, sliceAxesOf key 0) ∧
    (sliceAxesOf key 0).length =
      (applyKeysFun arr.values (resolveAll arr.axis_labels key 0)).shape.length ∧
    ∃ r, selImpl arr key = .ok r := by
  have hloop := resolveLoop_ok arr.axis_labels key 0
    (fun j e hj => by simpa using (hvalid j e hj).resolvesAt)
  have hlen : key.length = arr.values.shape.length := by
    rw [harity]; exact hwf.1
  have hcount := outShape_resolveAll_length arr.axis_labels key 0 arr.values.shape hlen
  have hsa : (sliceAxesOf key 0).length =
      (applyKeysFun arr.values (resolveAll arr.axis_labels key 0)).shape.length := by
    simpa [applyKeysFun] using hcount.symm
  refine ⟨hloop, hsa, ?_⟩
  simp only [selImpl]
  rw [if_neg (fun hc => hc harity), hloop]
  split
  · next heq => exact absurd heq (by simp)
  · next aks sa heq =>
      obtain ⟨rfl, rfl⟩ := Prod.ext_iff.mp (Except.ok.inj heq)
      by_cases h1 : (applyKeysFun arr.values (resolveAll arr.axis_labels key 0)).shape.length = 1
      · rw [if_pos h1, if_neg (fun hc => hc (hsa.trans h1))]
        exact ⟨_, rfl⟩
      · by_cases h2 : (applyKeysFun arr.values (resolveAll arr.axis_labels key 0)).shape.length = 2
        · rw [if_neg h1, if_pos h2, if_neg (fun hc => hc (hsa.trans h2))]
          exact ⟨_, rfl⟩
        · rw [if_neg h1, if_neg h2]
          exact ⟨_, rfl⟩

/-! ## Computation lemmas for 2-D selection results -/

theorem tolist1_pos_slc (f : List Nat → Int) (d0 d1 p0 : Nat) (s1 : PySlice) :
    tolist1 (applyKeysFun ⟨[d0, d1], f⟩ [.pos p0, .slc s1]) =
      (sliceList s1 d1).map (fun j => f [p0, j]) := by
  have h := range_map_getD_eq_map (sliceList s1 d1) 0 (fun v => f [p0, v])
  simpa [tolist1, applyKeysFun, outShape, buildSrcIdx] using h

theorem tolist1_slc_pos (f : List Nat → Int) (d0 d1 p1 : Nat) (s0 : PySlice) :
    tolist1 (applyKeysFun ⟨[d0, d1], f⟩ [.slc s0, .pos p1]) =
      (sliceList s0 d0).map (fun i => f [i, p1]) := by
  have h := range_map_getD_eq_map (sliceList s0 d0) 0 (fun v => f [v, p1])
  simpa [tolist1, applyKeysFun, outShape, buildSrcIdx] using h

theorem tolist2_slc_slc (f : List Nat → Int) (d0 d1 : Nat) (s0 s1 : PySlice) :
    tolist2 (applyKeysFun ⟨[d0, d1], f⟩ [.slc s0, .slc s1]) =
      (sliceList s0 d0).map (fun i => (sliceList s1 d1).map (fun j => f [i, j])) := by
  have hstep : (List.range (sliceList s0 d0).length).map
      (fun i => (List.range (sliceList s1 d1).length).map
        (fun j => f [(sliceList s0 d0).getD i 0, (sliceList s1 d1).getD j 0])) =
      (List.range (sliceList s0 d0).length).map
      (fun i => (sliceList s1 d1).map (fun w => f [(sliceList s0 d0).getD i 0, w])) := by
    apply List.map_congr_left
    intro a _
    exact range_map_getD_eq_map (sliceList s1 d1) 0
      (fun w => f [(sliceList s0 d0).getD a 0, w])
  have houter := range_map_getD_eq_map (sliceList s0 d0) 0
    (fun v => (sliceList s1 d1).map (fun w => f [v, w]))
  calc tolist2 (applyKeysFun ⟨[d0, d1], f⟩ [.slc s0, .slc s1])
      = (List.range (sliceList s0 d0).length).map
          (fun i => (List.range (sliceList s1 d1).length).map
            (fun j => f [(sliceList s0 d0).getD i 0, (sliceList s1 d1).getD j 0])) := by
        simp [tolist2, applyKeysFun, outShape, buildSrcIdx]
    _ = (List.range (sliceList s0 d0).length).map
          (fun i => (sliceList s1 d1).map (fun w => f [(sliceList s0 d0).getD i 0, w])) := hstep
    _ = (sliceList s0 d0).map (fun i => (sliceList s1 d1).map (fun j => f [i, j])) := houter

/-- Reduction of `selImpl` once the key has resolved. -/
theorem selImpl_eq_of_resolve (arr : LabelledDataArray) (key : List SelElem)
    (aks : List ApplyKey) (sa : List Nat)
    (harity : key.length = arr.n_dims)
    (hloop : resolveLoop arr.axis_labels key 0 = .ok (aks, sa)) :
    selImpl arr key =
      (if (applyKeysFun arr.values aks).shape.length = 1 then
        if sa.length ≠ 1 then .error .assertFailed
        else .ok (.series
          (applyKeyLabels (arr.axis_labels.getD (sa.getD 0 0) []) (aks.getD (sa.getD 0 0) (.pos 0)))
          (tolist1 (applyKeysFun arr.values aks)))
      else if (applyKeysFun arr.values aks).shape.length = 2 then
        if sa.length ≠ 2 then .error .assertFailed
        else .ok (.frame
          (applyKeyLabels (arr.axis_labels.getD (sa.getD 0 0) []) (aks.getD (sa.getD 0 0) (.pos 0)))
          (applyKeyLabels (arr.axis_labels.getD (sa.getD 1 0) []) (aks.getD (sa.getD 1 0) (.pos 0)))
          (tolist2 (applyKeysFun arr.values aks)))
      else .ok (.raw (applyKeysFun arr.values aks))) := by
  simp only [selImpl]
  rw [if_neg (fun hc => hc harity), hloop]

/-- **C1.** For every 2-D `LabelledDataArray` and every valid key, `sel`
re-wraps the positionally-indexed result by the number of retained (slice)
axes: two labels collapse both axes and return the scalar at the resolved
positions; one label and one slice return a labelled 1-D value whose label
vector is the retained axis's labels indexed by the same slice and whose
values are the corresponding buffer entries; two slices return a labelled
table whose row and column labels are the sliced sub-vectors of the first
and second axis in retained-axis order. -/
theorem C1_sel_two_dim (arr : LabelledDataArray) (hwf : WF arr) (h2 : arr.n_dims = 2)
    (e0 e1 : SelElem)
    (hv0 : WfElem arr.axis_labels 0 e0) (hv1 : WfElem arr.axis_labels 1 e1) :
    (∀ l0 l1, e0 = .lbl l0 → e1 = .lbl l1 →
      ∃ a, selImpl arr [e0, e1] = .ok (.raw a) ∧ a.shape = [] ∧
        a.data [] = arr.values.data
          [List.indexOf l0 (arr.axis_labels.getD 0 []),
           List.indexOf l1 (arr.axis_labels.getD 1 [])]) ∧
    (∀ l0 s1, e0 = .lbl l0 → e1 = .slc s1 →
      selImpl arr [e0, e1] = .ok (.series
        ((sliceList s1 (arr.values.shape.getD 1 0)).map
          (fun j => (arr.axis_labels.getD 1 []).getD j ""))
        ((sliceList s1 (arr.values.shape.getD 1 0)).map
          (fun j => arr.values.data [List.indexOf l0 (arr.axis_labels.getD 0 []), j])))) ∧
    (∀ s0 l1, e0 = .slc s0 → e1 = .lbl l1 →
      selImpl arr [e0, e1] = .ok (.series
        ((sliceList s0 (arr.values.shape.getD 0 0)).map
          (fun i => (arr.axis_labels.getD 0 []).getD i ""))
        ((sliceList s0 (arr.values.shape.getD 0 0)).map
          (fun i => arr.values.data [i, List.indexOf l1 (arr.axis_labels.getD 1 [])])))) ∧
    (∀ s0 s1, e0 = .slc s0 → e1 = .slc s1 →
      selImpl arr [e0, e1] = .ok (.frame
        ((sliceList s0 (arr.values.shape.getD 0 0)).map
          (fun i => (arr.axis_labels.getD 0 []).getD i ""))
        ((sliceList s1 (arr.values.shape.getD 1 0)).map
          (fun j => (arr.axis_labels.getD 1 []).getD j ""))
        ((sliceList s0 (arr.values.shape.getD 0 0)).map
          (fun i => (sliceList s1 (arr.values.shape.getD 1 0)).map
            (fun j => arr.values.data [i, j]))))) := by
  obtain ⟨⟨shape, f⟩, labels, names⟩ := arr
  obtain ⟨hwf1, hwf2, hwf3⟩ := hwf
  simp only [LabelledDataArray.n_dims] at h2
  obtain ⟨lab0, lab1, rfl⟩ := List.length_eq_two.mp h2
  obtain ⟨d0, d1, rfl⟩ : ∃ a b, shape = [a, b] :=
    List.length_eq_two.mp (by simpa using hwf1.symm.trans h2)
  have hl0 : lab0.length = d0 := by simpa using hwf2 0 (by simp)
  have hl1 : lab1.length = d1 := by simpa using hwf2 1 (by simp)
  refine ⟨?_, ?_, ?_, ?_⟩
  · rintro l0 l1 rfl rfl
    have hm0 : l0 ∈ lab0 := by simpa [WfElem] using hv0
    have hm1 : l1 ∈ lab1 := by simpa [WfElem] using hv1
    have hr : resolveLoop [lab0, lab1] [.lbl l0, .lbl l1] 0 =
        .ok ([.pos (List.indexOf l0 lab0), .pos (List.indexOf l1 lab1)], []) := by
      simp [resolveLoop, hm0, hm1]
    refine ⟨applyKeysFun ⟨[d0, d1], f⟩
      [.pos (List.indexOf l0 lab0), .pos (List.indexOf l1 lab1)], ?_, rfl, rfl⟩
    rw [selImpl_eq_of_resolve _ _ _ _ (by simp [LabelledDataArray.n_dims]) hr]
    simp [applyKeysFun, outShape]
  · rintro l0 s1 rfl rfl
    have hm0 : l0 ∈ lab0 := by simpa [WfElem] using hv0
    have hr : resolveLoop [lab0, lab1] [.lbl l0, .slc s1] 0 =
        .ok ([.pos (List.indexOf l0 lab0), .slc s1], [1]) := by
      simp [resolveLoop, hm0]
    rw [selImpl_eq_of_resolve _ _ _ _ (by simp [LabelledDataArray.n_dims]) hr]
    simp only [tolist1_pos_slc]
    simp [applyKeysFun, outShape, applyKeyLabels, hl1]
  · rintro s0 l1 rfl rfl
    have hm1 : l1 ∈ lab1 := by simpa [WfElem] using hv1
    have hr : resolveLoop [lab0, lab1] [.slc s0, .lbl l1] 0 =
        .ok ([.slc s0, .pos (List.indexOf l1 lab1)], [0]) := by
      simp [resolveLoop, hm1]
    rw [selImpl_eq_of_resolve _ _ _ _ (by simp [LabelledDataArray.n_dims]) hr]
    simp only [tolist1_slc_pos]
    simp [applyKeysFun, outShape, applyKeyLabels, hl0]
  · rintro s0 s1 rfl rfl
    have hr : resolveLoop [lab0, lab1] [.slc s0, .slc s1] 0 =
        .ok ([.slc s0, .slc s1], [0, 1]) := by
      simp [resolveLoop]
    rw [selImpl_eq_of_resolve _ _ _ _ (by simp [LabelledDataArray.n_dims]) hr]
    simp only [tolist2_slc_slc]
    simp [applyKeysFun, outShape, applyKeyLabels, hl0, hl1]

/-- Witness for C1 at the specification's example: `sel["a", :]` on the
2×3 array with row labels `["a","b"]` and column labels `["x","y","z"]`. -/
theorem C1_sel_two_dim_witness :
    (∀ l0 l1, SelElem.lbl "a" = .lbl l0 → SelElem.slc fullSlice = .lbl l1 →
      ∃ a, selImpl exArr [.lbl "a", .slc fullSlice] = .ok (.raw a) ∧ a.shape = [] ∧
        a.data [] = exArr.values.data
          [List.indexOf l0 (exArr.axis_labels.getD 0 []),
           List.indexOf l1 (exArr.axis_labels.getD 1 [])]) ∧
    (∀ l0 s1, SelElem.lbl "a" = .lbl l0 → SelElem.slc fullSlice = .slc s1 →
      selImpl exArr [.lbl "a", .slc fullSlice] = .ok (.series
        ((sliceList s1 (exArr.values.shape.getD 1 0)).map
          (fun j => (exArr.axis_labels.getD 1 []).getD j ""))
        ((sliceList s1 (exArr.values.shape.getD 1 0)).map
          (fun j => exArr.values.data [List.indexOf l0 (exArr.axis_labels.getD 0 []), j])))) ∧
    (∀ s0 l1, SelElem.lbl "a" = .slc s0 → SelElem.slc fullSlice = .lbl l1 →
      selImpl exArr [.lbl "a", .slc fullSlice] = .ok (.series
        ((sliceList s0 (exArr.values.shape.getD 0 0)).map
          (fun i => (exArr.axis_labels.getD 0 []).getD i ""))
        ((sliceList s0 (exArr.values.shape.getD 0 0)).map
          (fun i => exArr.values.data [i, List.indexOf l1 (exArr.axis_labels.getD 1 [])])))) ∧
    (∀ s0 s1, SelElem.lbl "a" = .slc s0 → SelElem.slc fullSlice = .slc s1 →
      selImpl exArr [.lbl "a", .slc fullSlice] = .ok (.frame
        ((sliceList s0 (exArr.values.shape.getD 0 0)).map
          (fun i => (exArr.axis_labels.getD 0 []).getD i ""))
        ((sliceList s1 (exArr.values.shape.getD 1 0)).map
          (fun j => (exArr.axis_labels.getD 1 []).getD j ""))
        ((sliceList s0 (exArr.values.shape.getD 0 0)).map
          (fun i => (sliceList s1 (exArr.values.shape.getD 1 0)).map
            (fun j => exArr.values.data [i, j]))))) :=
  C1_sel_two_dim exArr (by decide) (by decide) (.lbl "a") (.slc fullSlice)
    (by decide) (by decide)

/-- Witness for C4: the valid key `["a", :]` on the example array. -/
theorem C4_assertions_witness :
    resolveLoop exArr.axis_labels [.lbl "a", .slc fullSlice] 0 =
      .ok (resolveAll exArr.axis_labels [.lbl "a", .slc fullSlice] 0,
        sliceAxesOf [.lbl "a", .slc fullSlice] 0) ∧
    (sliceAxesOf [.lbl "a", .slc fullSlice] 0).length =
      (applyKeysFun exArr.values
        (resolveAll exArr.axis_labels [.lbl "a", .slc fullSlice] 0)).shape.length ∧
    ∃ r, selImpl exArr [.lbl "a", .slc fullSlice] = .ok r :=
  C4_assertions exArr (by decide) [.lbl "a", .slc fullSlice] (by decide)
    (fun j e hj => by
      match j with
      | 0 =>
          have he : SelElem.lbl "a" = e := by simpa using hj
          cases he
          decide
      | 1 =>
          have he : SelElem.slc fullSlice = e := by simpa using hj
          cases he
          decide
      | _ + 2 => simp at hj)

/-! ## Permutation lemmas for `rearrange` -/

theorem resolveNames_ok (names : List String) :
    ∀ (order : List String), (∀ x ∈ order, x ∈ names) →
      resolveNames names order = .ok (order.map (fun x => List.indexOf x names))
  | [], _ => rfl
  | n :: rest, h => by
      have hrec := resolveNames_ok names rest (fun x hx => h x (List.mem_cons_of_mem n hx))
      simp only [resolveNames, List.map_cons]
      rw [if_pos (h n (List.mem_cons_self n rest)), hrec]

/-- `indexOf` into `l1` is injective on members of `l1`. -/
theorem indexOf_injOn {α : Type} [DecidableEq α] {l1 : List α} {x y : α}
    (hx : x ∈ l1) (hy : y ∈ l1) (hxy : List.indexOf x l1 = List.indexOf y l1) :
    x = y := by
  have h1 := List.getElem?_indexOf hx
  have h2 := List.getElem?_indexOf hy
  rw [hxy] at h1
  exact Option.some.inj (h1.symm.trans h2)

/-- Looking a position up in the index-translation of a permuted name list:
`indexOf p (l2.map (indexOf · l1)) = indexOf l1[p] l2`. -/
theorem indexOf_map_indexOf {α : Type} [DecidableEq α] {l1 l2 : List α}
    (hnd1 : l1.Nodup) (hnd2 : l2.Nodup) (hsub : ∀ x ∈ l2, x ∈ l1)
    (p : Nat) (hp : p < l1.length) (hmem : l1[p] ∈ l2) :
    List.indexOf p (l2.map (fun x => List.indexOf x l1)) = List.indexOf l1[p] l2 := by
  have hLnd : (l2.map (fun x => List.indexOf x l1)).Nodup :=
    hnd2.map_on (fun x hx y hy hxy => indexOf_injOn (hsub x hx) (hsub y hy) hxy)
  have hk : List.indexOf l1[p] l2 < l2.length := List.indexOf_lt_length.mpr hmem
  have hk2 : List.indexOf l1[p] l2 < (l2.map (fun x => List.indexOf x l1)).length := by
    simpa using hk
  have hLk : (l2.map (fun x => List.indexOf x l1))[List.indexOf l1[p] l2] = p := by
    rw [List.getElem_map, List.getElem_indexOf hk]
    exact List.indexOf_getElem hnd1 p hp
  conv_lhs => rw [← hLk]
  exact List.indexOf_getElem hLnd _ (by simpa using hk)

/-- The two index translations of a permutation are mutually inverse (in
`indexOf` form). -/
theorem perm_indexOf_comp {α : Type} [DecidableEq α] (names newOrder : List α)
    (hnd : names.Nodup) (hperm : newOrder.Perm names) (p : Nat) (hp : p < names.length) :
    List.indexOf p (newOrder.map (fun x => List.indexOf x names)) < newOrder.length ∧
    List.indexOf (List.indexOf p (newOrder.map (fun x => List.indexOf x names)))
      (names.map (fun x => List.indexOf x newOrder)) = p := by
  have hnd2 : newOrder.Nodup := hperm.nodup_iff.mpr hnd
  have hsub : ∀ x ∈ newOrder, x ∈ names := fun x hx => hperm.mem_iff.mp hx
  have hsub' : ∀ x ∈ names, x ∈ newOrder := fun x hx => hperm.mem_iff.mpr hx
  have hmem : names[p] ∈ newOrder := hsub' _ (List.getElem_mem hp)
  have hq := indexOf_map_indexOf hnd hnd2 hsub p hp hmem
  have hqlt : List.indexOf names[p] newOrder < newOrder.length :=
    List.indexOf_lt_length.mpr hmem
  refine ⟨by rw [hq]; exact hqlt, ?_⟩
  rw [hq]
  have hmem2 : newOrder[List.indexOf names[p] newOrder] ∈ names :=
    hsub _ (List.getElem_mem hqlt)
  have h2 := indexOf_map_indexOf hnd2 hnd hsub' (List.indexOf names[p] newOrder) hqlt hmem2
  rw [h2, List.getElem_indexOf hqlt]
  exact List.indexOf_getElem hnd p hp

/-- `rearrange` succeeds on any order drawn from the axis names of a
well-formed array, producing the permuted labels, the transposed buffer
and the new names. -/
theorem rearrangeImpl_ok (v : NDArray) (labels : List (List String))
    (names : List String) (order : List String)
    (hwf2 : ∀ i < labels.length, (labels.getD i []).length = v.shape.getD i 0)
    (hidx : ∀ x ∈ order, x ∈ names)
    (hlen : names.length = labels.length) :
    rearrangeImpl ⟨v, labels, names⟩ order =
      .ok ⟨transposeND v (order.map (fun x => List.indexOf x names)),
           (order.map (fun x => List.indexOf x names)).map (fun k => labels.getD k []),
           order⟩ := by
  have hres := resolveNames_ok names order hidx
  simp only [rearrangeImpl]
  rw [hres]
  show mkLabelled (transposeND v (order.map (fun x => List.indexOf x names)))
      ((order.map (fun x => List.indexOf x names)).map (fun k => labels.getD k []))
      (some order) = _
  rw [mkLabelled_ok_some]
  · simp [transposeND]
  · intro i hi
    have hi' : i < order.length := by simpa using hi
    have hax : i < (order.map (fun x => List.indexOf x names)).length := by simpa using hi'
    rw [List.getD_eq_getElem
        ((order.map (fun x => List.indexOf x names)).map (fun k => labels.getD k []))
        [] (by simpa using hi')]
    rw [show (transposeND v (order.map (fun x => List.indexOf x names))).shape =
      (order.map (fun x => List.indexOf x names)).map (fun k => v.shape.getD k 0) from rfl]
    rw [List.getD_eq_getElem
        ((order.map (fun x => List.indexOf x names)).map (fun k => v.shape.getD k 0))
        0 (by simpa using hi')]
    simp only [List.getElem_map]
    apply hwf2
    have h3 := List.indexOf_lt_length.mpr (hidx order[i] (List.getElem_mem hi'))
    omega

/-- Round-tripping a position through both index translations of a
permutation of names, in `getD` form. -/
theorem perm_roundtrip_getD {β : Type} (names newOrder : List String)
    (hnd : names.Nodup) (hperm : newOrder.Perm names)
    (f : Nat → β) (d : β) (j : Nat) (hj : j < names.length) :
    ((names.map (fun x => List.indexOf x newOrder)).map
      (fun k => ((newOrder.map (fun x => List.indexOf x names)).map f).getD k d)).getD j d
      = f j := by
  have hq : List.indexOf names[j] newOrder < newOrder.length :=
    List.indexOf_lt_length.mpr (hperm.mem_iff.mpr (List.getElem_mem hj))
  rw [List.getD_eq_getElem _ d (by simpa using hj)]
  simp only [List.getElem_map]
  rw [List.getD_eq_getElem _ d (by simpa using hq)]
  simp only [List.getElem_map]
  congr 1
  rw [List.getElem_indexOf hq]
  exact List.indexOf_getElem hnd j hj

/-- **C7.** For every well-formed `LabelledDataArray` with duplicate-free
axis names and every permutation `newOrder` of those names,
`arr.rearrange(new_order).rearrange(old_order)` reproduces the original
array exactly: both calls succeed, and the final array has the original
axis names, the original axis labels, and a buffer with the original shape
and the original value at every index of the array's dimensionality. -/
theorem C7_rearrange_roundtrip (arr : LabelledDataArray) (hwf : WF arr)
    (hnd : arr.axis_names.Nodup) (newOrder : List String)
    (hperm : newOrder.Perm arr.axis_names) :
    ∃ arr₁ arr₂, rearrangeImpl arr newOrder = .ok arr₁ ∧
      rearrangeImpl arr₁ arr.axis_names = .ok arr₂ ∧
      arr₂.axis_names = arr.axis_names ∧
      arr₂.axis_labels = arr.axis_labels ∧
      arr₂.values.shape = arr.values.shape ∧
      (∀ idx, idx.length = arr.n_dims →
        arr₂.values.data idx = arr.values.data idx) := by
  obtain ⟨v, labels, names⟩ := arr
  obtain ⟨hwf1, hwf2, hwf3⟩ := hwf
  dsimp only [LabelledDataArray.n_dims] at hwf1 hwf2 hwf3 hnd hperm ⊢
  have hsub : ∀ x ∈ newOrder, x ∈ names := fun x hx => hperm.mem_iff.mp hx
  have hsub' : ∀ x ∈ names, x ∈ newOrder := fun x hx => hperm.mem_iff.mpr hx
  have hNo : newOrder.length = names.length := hperm.length_eq
  have h1 := rearrangeImpl_ok v labels names newOrder hwf2 hsub hwf3
  have hwf2' : ∀ i < ((newOrder.map (fun x => List.indexOf x names)).map
      (fun k => labels.getD k [])).length,
      (((newOrder.map (fun x => List.indexOf x names)).map
        (fun k => labels.getD k [])).getD i []).length =
      (transposeND v (newOrder.map (fun x => List.indexOf x names))).shape.getD i 0 := by
    intro i hi
    have hi' : i < newOrder.length := by simpa using hi
    rw [List.getD_eq_getElem
        ((newOrder.map (fun x => List.indexOf x names)).map (fun k => labels.getD k []))
        [] (by simpa using hi')]
    rw [show (transposeND v (newOrder.map (fun x => List.indexOf x names))).shape =
      (newOrder.map (fun x => List.indexOf x names)).map (fun k => v.shape.getD k 0) from rfl]
    rw [List.getD_eq_getElem
        ((newOrder.map (fun x => List.indexOf x names)).map (fun k => v.shape.getD k 0))
        0 (by simpa using hi')]
    simp only [List.getElem_map]
    apply hwf2
    have h3 := List.indexOf_lt_length.mpr (hsub newOrder[i] (List.getElem_mem hi'))
    omega
  have hlen' : newOrder.length = ((newOrder.map (fun x => List.indexOf x names)).map
      (fun k => labels.getD k [])).length := by simp
  have h2 := rearrangeImpl_ok (transposeND v (newOrder.map (fun x => List.indexOf x names)))
    ((newOrder.map (fun x => List.indexOf x names)).map (fun k => labels.getD k []))
    newOrder names hwf2' hsub' hlen'
  refine ⟨_, _, h1, h2, rfl, ?_, ?_, ?_⟩
  · -- axis_labels round-trip
    apply List.ext_getElem
    · simpa using hwf3
    · intro j h1j h2j
      have hjn : j < names.length := by simpa using h1j
      have hcast := perm_roundtrip_getD names newOrder hnd hperm
        (fun k => labels.getD k []) [] j hjn
      rw [List.getD_eq_getElem _ [] (by simpa using hjn)] at hcast
      rw [hcast]
      exact List.getD_eq_getElem labels [] h2j
  · -- shape round-trip
    apply List.ext_getElem
    · simp only [transposeND, List.length_map]
      omega
    · intro j h1j h2j
      have hjn : j < names.length := by
        simp only [transposeND, List.length_map] at h1j
        omega
      have hcast := perm_roundtrip_getD names newOrder hnd hperm
        (fun k => v.shape.getD k 0) 0 j hjn
      rw [← List.getD_eq_getElem _ 0 h1j]
      show ((names.map (fun x => List.indexOf x newOrder)).map
        (fun k => ((newOrder.map (fun x => List.indexOf x names)).map
          (fun k => v.shape.getD k 0)).getD k 0)).getD j 0 = v.shape[j]
      exact hcast.trans (List.getD_eq_getElem v.shape 0 h2j)
  · -- data round-trip
    intro idx hidxlen
    simp only [transposeND, List.length_map]
    congr 1
    apply List.ext_getElem
    · simp
      omega
    · intro p hp1 hp2
      have hpn : p < names.length := by
        simp at hp1
        omega
      simp only [List.getElem_map, List.getElem_range]
      obtain ⟨hqlt, hcomp⟩ := perm_indexOf_comp names newOrder hnd hperm p hpn
      rw [List.getD_eq_getElem _ 0 (by simpa using hqlt)]
      simp only [List.getElem_map, List.getElem_range]
      rw [hcomp]
      exact List.getD_eq_getElem idx 0 (by omega)

/-- Witness for C7: swapping the two axes of the example array and back. -/
theorem C7_rearrange_roundtrip_witness :
    ∃ arr₁ arr₂, rearrangeImpl exArr ["axis_1", "axis_0"] = .ok arr₁ ∧
      rearrangeImpl arr₁ exArr.axis_names = .ok arr₂ ∧
      arr₂.axis_names = exArr.axis_names ∧
      arr₂.axis_labels = exArr.axis_labels ∧
      arr₂.values.shape = exArr.values.shape ∧
      (∀ idx, idx.length = exArr.n_dims →
        arr₂.values.data idx = exArr.values.data idx) :=
  C7_rearrange_roundtrip exArr (by decide) (by decide) ["axis_1", "axis_0"] (by decide)

/-! ## Lemmas for `sum` -/

theorem dropAxis_eq_eraseIdx :
    ∀ (xs : List (String × List String)) (k i : Nat),
      dropAxis k xs i = if k < i then xs else xs.eraseIdx (k - i)
  | [], k, i => by simp [dropAxis]
  | x :: xs, k, i => by
      simp only [dropAxis]
      by_cases hik : i = k
      · subst hik
        rw [if_pos rfl, dropAxis_eq_eraseIdx xs i (i + 1)]
        simp [Nat.lt_irrefl]
      · rw [if_neg hik]
        rcases Nat.lt_or_ge k i with hlt | hge
        · rw [dropAxis_eq_eraseIdx xs k (i + 1), if_pos (by omega), if_pos hlt]
        · have hgt : i < k := by omega
          rw [dropAxis_eq_eraseIdx xs k (i + 1), if_neg (by omega), if_neg (by omega)]
          have harith : k - i = (k - (i + 1)) + 1 := by omega
          rw [harith, List.eraseIdx_cons_succ]

/-- Reduction of `sumImpl` once the axis argument has resolved. -/
theorem sumImpl_eq_of_axis (arr : LabelledDataArray) (axisArg : Nat ⊕ String) (k : Nat)
    (hres : resolveAxis arr axisArg = .ok k) :
    sumImpl arr axisArg =
      (if k < arr.axis_names.length then
        if (dropAxis k (arr.axis_names.zip arr.axis_labels) 0).isEmpty then
          .error .emptyUnpack
        else if k < arr.values.shape.length then
          mkLabelled (sumAxis arr.values k)
            ((dropAxis k (arr.axis_names.zip arr.axis_labels) 0).map Prod.snd)
            (some ((dropAxis k (arr.axis_names.zip arr.axis_labels) 0).map Prod.fst))
        else .error .axisOutOfRange
      else .error .indexError) := by
  simp only [sumImpl]
  rw [hres]

/-- **C8 (amended).** For every well-formed `LabelledDataArray` with at
least two axes and every valid axis (in-range index or present name,
resolving to position `k`), `sum` succeeds and returns a new array whose
axis names and axis labels are the originals with exactly position `k`
removed (relative order preserved) and whose buffer is the summation of the
original buffer along axis `k`. -/
theorem C8_sum_removes_axis (arr : LabelledDataArray) (hwf : WF arr)
    (hdim : 2 ≤ arr.n_dims) (axisArg : Nat ⊕ String) (k : Nat)
    (hres : resolveAxis arr axisArg = .ok k) (hk : k < arr.n_dims) :
    sumImpl arr axisArg = .ok ⟨sumAxis arr.values k,
      arr.axis_labels.eraseIdx k, arr.axis_names.eraseIdx k⟩ := by
  obtain ⟨v, labels, names⟩ := arr
  obtain ⟨hwf1, hwf2, hwf3⟩ := hwf
  dsimp only [LabelledDataArray.n_dims] at hwf1 hwf2 hwf3 hdim hk ⊢
  rw [sumImpl_eq_of_axis _ axisArg k hres]
  dsimp only
  have hkn : k < names.length := by omega
  rw [if_pos hkn]
  have hpairs : dropAxis k (names.zip labels) 0 = (names.zip labels).eraseIdx k := by
    rw [dropAxis_eq_eraseIdx]
    simp
  rw [hpairs]
  have hzlen : (names.zip labels).length = labels.length := by
    rw [List.length_zip]
    omega
  have hne : ¬ (((names.zip labels).eraseIdx k).isEmpty = true) := by
    rw [Bool.not_eq_true, List.isEmpty_eq_false]
    intro hc
    have hle := List.length_eraseIdx (names.zip labels) k
    rw [hc, if_pos (by omega)] at hle
    simp at hle
    omega
  rw [if_neg hne]
  rw [if_pos (show k < v.shape.length by omega)]
  have hsnd : ((names.zip labels).eraseIdx k).map Prod.snd = labels.eraseIdx k := by
    rw [map_eraseIdx_comm, List.map_snd_zip _ _ (by omega)]
  have hfst : ((names.zip labels).eraseIdx k).map Prod.fst = names.eraseIdx k := by
    rw [map_eraseIdx_comm, List.map_fst_zip _ _ (by omega)]
  rw [hsnd, hfst]
  have hllen : (labels.eraseIdx k).length = labels.length - 1 := by
    rw [List.length_eraseIdx, if_pos (by omega)]
  have hslen : (v.shape.eraseIdx k).length = v.shape.length - 1 := by
    rw [List.length_eraseIdx, if_pos (by omega)]
  rw [mkLabelled_ok_some]
  · rw [show (sumAxis v k).shape = v.shape.eraseIdx k from rfl]
    omega
  · intro i hi
    have hi' : i < labels.length - 1 := by omega
    rw [List.getD_eq_getElem (labels.eraseIdx k) [] (by omega)]
    rw [show (sumAxis v k).shape = v.shape.eraseIdx k from rfl]
    rw [List.getD_eq_getElem (v.shape.eraseIdx k) 0 (by omega)]
    rw [List.getElem_eraseIdx, List.getElem_eraseIdx]
    by_cases hik : i < k
    · rw [dif_pos hik, dif_pos hik]
      have h2 := hwf2 i (by omega)
      rw [List.getD_eq_getElem labels [] (by omega),
          List.getD_eq_getElem v.shape 0 (by omega)] at h2
      exact h2
    · rw [dif_neg hik, dif_neg hik]
      have h2 := hwf2 (i + 1) (by omega)
      rw [List.getD_eq_getElem labels [] (by omega),
          List.getD_eq_getElem v.shape 0 (by omega)] at h2
      exact h2

/-- **C8 counterexample.** The claim as stated covers every
`LabelledDataArray`; on a 1-D array `sum(0)` does not return the reduced
array but fails while unpacking `zip(*[])` (cf. C10). -/
theorem C8_counterexample :
    sumImpl ex1Arr (Sum.inl 0) = .error .emptyUnpack := rfl

/-- Witness for the amended C8: summing the example 2×3 array over axis 0. -/
theorem C8_sum_removes_axis_witness :
    sumImpl exArr (Sum.inl 0) = .ok ⟨sumAxis exArr.values 0,
      exArr.axis_labels.eraseIdx 0, exArr.axis_names.eraseIdx 0⟩ :=
  C8_sum_removes_axis exArr (by decide) (by decide) (Sum.inl 0) 0 rfl (by decide)

/-- **C10.** For every well-formed 1-D `LabelledDataArray`, `sum` on its
only axis — whether addressed as index 0 or by the axis's name — raises the
empty-unpacking `ValueError` from `zip(*[])` instead of returning a 0-D
result, and `sum` never successfully returns for 1-D inputs, whatever the
axis argument. -/
theorem C10_sum_one_dim_errors (arr : LabelledDataArray) (hwf : WF arr)
    (h1 : arr.n_dims = 1) :
    sumImpl arr (.inl 0) = .error .emptyUnpack ∧
    sumImpl arr (.inr (arr.axis_names.getD 0 "")) = .error .emptyUnpack ∧
    ∀ a r, sumImpl arr a ≠ .ok r := by
  obtain ⟨v, labels, names⟩ := arr
  obtain ⟨hwf1, hwf2, hwf3⟩ := hwf
  dsimp only [LabelledDataArray.n_dims] at hwf1 hwf2 hwf3 h1 ⊢
  obtain ⟨lab, rfl⟩ := List.length_eq_one.mp h1
  obtain ⟨nm, rfl⟩ := List.length_eq_one.mp (hwf3.trans h1)
  have hbase : ∀ axisArg, resolveAxis ⟨v, [lab], [nm]⟩ axisArg = .ok 0 →
      sumImpl ⟨v, [lab], [nm]⟩ axisArg = .error .emptyUnpack := by
    intro axisArg hres
    rw [sumImpl_eq_of_axis _ axisArg 0 hres]
    simp [dropAxis]
  refine ⟨hbase (.inl 0) rfl, ?_, ?_⟩
  · apply hbase
    show resolveAxis _ (.inr nm) = .ok 0
    simp [resolveAxis, List.indexOf_cons_self]
  · intro a r hc
    cases a with
    | inl j =>
        cases j with
        | zero =>
            rw [hbase (.inl 0) rfl] at hc
            exact absurd hc (by simp)
        | succ j =>
            rw [sumImpl_eq_of_axis _ (.inl (j + 1)) (j + 1) rfl] at hc
            rw [if_neg (by simp)] at hc
            exact absurd hc (by simp)
    | inr name =>
        by_cases hm : name ∈ ([nm] : List String)
        · have hnm : name = nm := by simpa using hm
          subst hnm
          have hres : resolveAxis ⟨v, [lab], [name]⟩ (.inr name) = .ok 0 := by
            simp [resolveAxis, List.indexOf_cons_self]
          rw [hbase (.inr name) hres] at hc
          exact absurd hc (by simp)
        · have hres : resolveAxis ⟨v, [lab], [nm]⟩ (.inr name) =
              .error .axisNameNotFound := by
            have hne : ¬ name = nm := by simpa using hm
            simp [resolveAxis, hne]
          rw [show sumImpl ⟨v, [lab], [nm]⟩ (.inr name) = .error .axisNameNotFound from by
            simp only [sumImpl]
            rw [hres]] at hc
          exact absurd hc (by simp)

/-- Witness for C10 on a concrete 1-D array. -/
theorem C10_sum_one_dim_errors_witness :
    sumImpl ex1Arr (.inl 0) = .error .emptyUnpack ∧
    sumImpl ex1Arr (.inr (ex1Arr.axis_names.getD 0 "")) = .error .emptyUnpack ∧
    ∀ a r, sumImpl ex1Arr a ≠ .ok r :=
  C10_sum_one_dim_errors ex1Arr (by decide) (by decide)

/-- **C9 counterexample.** The claim promises one position per requested
label for every `LabelledDataArray`.  On an axis with duplicate labels,
`pd.Index(...).get_indexer_for` returns every matching position, so a
single requested label can produce two entries. -/
theorem C9_counterexample :
    getIndexerImpl dupArr ["x"] (Sum.inl 0) = .ok [0, 1] ∧
    ([(0 : Int), 1].length ≠ (["x"] : List String).length) := by
  constructor
  · rfl
  · simp

/-- **C9 (amended).** For every `LabelledDataArray` and valid axis whose
label vector is duplicate-free, `get_indexer` returns one position per
requested label — the label's position, or the sentinel `-1` when absent —
and never raises for an individual missing label; with duplicate labels in
the axis the underlying `get_indexer_for` instead returns every matching
position per key. -/
theorem C9_get_indexer (arr : LabelledDataArray) (keys : List String)
    (axisArg : Nat ⊕ String) (k : Nat)
    (hres : resolveAxis arr axisArg = .ok k) (hk : k < arr.axis_labels.length)
    (hnd : (arr.axis_labels.getD k []).Nodup) :
    getIndexerImpl arr keys axisArg =
      .ok (keys.map (fun key =>
        if key ∈ arr.axis_labels.getD k []
        then (List.indexOf key (arr.axis_labels.getD k []) : Int) else -1)) ∧
    (getIndexerFor (arr.axis_labels.getD k []) keys).length = keys.length := by
  have hfor : getIndexerFor (arr.axis_labels.getD k []) keys =
      keys.map (fun key =>
        if key ∈ arr.axis_labels.getD k []
        then (List.indexOf key (arr.axis_labels.getD k []) : Int) else -1) := by
    simp only [getIndexerFor]
    rw [if_pos hnd]
  constructor
  · simp only [getIndexerImpl]
    rw [hres]
    show (if k < arr.axis_labels.length then
        Except.ok (getIndexerFor (arr.axis_labels.getD k []) keys)
      else Except.error Err.indexError) = _
    rw [if_pos hk, hfor]
  · rw [hfor]
    simp

/-- Witness for the amended C9: `get_indexer(["x","q"], axis=1)` on the
example array returns `[0, -1]`. -/
theorem C9_get_indexer_witness :
    getIndexerImpl exArr ["x", "q"] (Sum.inl 1) =
      .ok ((["x", "q"] : List String).map (fun key =>
        if key ∈ exArr.axis_labels.getD 1 []
        then (List.indexOf key (exArr.axis_labels.getD 1 []) : Int) else -1)) ∧
    (getIndexerFor (exArr.axis_labels.getD 1 []) ["x", "q"]).length =
      (["x", "q"] : List String).length :=
  C9_get_indexer exArr ["x", "q"] (Sum.inl 1) 1 rfl (by decide) (by decide)
